import Mathlib

/-!
Shallow embedding of the growth simulation (src/simulation.cpp and
src/ply_loader.cpp) and proofs about its per-frame phases.

Modelling conventions:
* C++ doubles/floats are modelled as rationals; the floating square root used
  by vector normalization is an oracle parameter of the context.
* A cell's pointer ring of neighbours is modelled as the list of neighbour
  indices (the repository stores cells in a flat vector with stable indices,
  and spec section 9 endorses exactly this representation), so dereferencing a
  link and reading its stable index is the link value itself.
* Particle methods (the Particle class body is not in the repository sources,
  only its callers are) are modelled from the spec or taken as parameters of
  the context, as marked on each field.
* The parallel phases partition the index range into contiguous blocks whose
  union is the whole range and each worker writes only its own cells, so their
  denotation is a per-index map over the whole population.
-/

/-- Three-dimensional vector over rationals, standing for Eigen Vector3d. -/
structure Vec3 where
  x : ℚ
  y : ℚ
  z : ℚ
deriving DecidableEq, Repr

/-- Componentwise vector addition. -/
def Vec3.add (a b : Vec3) : Vec3 := ⟨a.x + b.x, a.y + b.y, a.z + b.z⟩

/-- Componentwise vector subtraction. -/
def Vec3.sub (a b : Vec3) : Vec3 := ⟨a.x - b.x, a.y - b.y, a.z - b.z⟩

/-- Scalar multiplication of a vector. -/
def Vec3.smul (s : ℚ) (a : Vec3) : Vec3 := ⟨s * a.x, s * a.y, s * a.z⟩

/-- The zero vector. -/
def Vec3.zero : Vec3 := ⟨0, 0, 0⟩

/-- Squared Euclidean norm, as in Eigen squaredNorm. -/
def Vec3.squaredNorm (a : Vec3) : ℚ := a.x * a.x + a.y * a.y + a.z * a.z

/-- A mesh vertex (Particle in the sources): stable index, geometry, scalar
state, the ordered ring of neighbour indices and per-frame accumulators. -/
structure Cell where
  index : Nat
  position : Vec3
  normal : Vec3
  delta : Vec3
  links : List Nat
  food : ℚ
  age : ℚ
  inherited : ℚ
  area : ℚ
  curvature : ℚ
  curvature_nan : Bool
  collisions : Nat
  collision_target : Vec3
  frozen : Bool
  environs : Bool
  special : Bool
  special_baby : Bool
  generation : Nat
deriving DecidableEq, Repr

/-- The freshly constructed Particle with a given index: all scalar state
zero, empty ring, no flags set. -/
def defaultCell (idx : Nat) : Cell :=
  { index := idx, position := Vec3.zero, normal := Vec3.zero, delta := Vec3.zero
    links := [], food := 0, age := 0, inherited := 0, area := 0, curvature := 0
    curvature_nan := false, collisions := 0, collision_target := Vec3.zero
    frozen := false, environs := false, special := false, special_baby := false
    generation := 0 }

/-- Read the cell stored at position i of the population vector. -/
def cellAt (cells : List Cell) (i : Nat) : Cell := cells.getD i (defaultCell 0)

/-- Modelled from the spec: Particle::connected_to (not under src/) is the
membership test of a neighbour against the ring. -/
def Cell.connected_to (c : Cell) (q : Nat) : Bool := decide (q ∈ c.links)

/-- Modelled from the spec: Particle::add_link (not under src/) appends a
neighbour to the ring. -/
def Cell.add_link (c : Cell) (q : Nat) : Cell := { c with links := c.links ++ [q] }

/-- Modelled from the spec (invariant 3a): Particle::good_loop (not under
src/) holds iff every consecutive ring pair is itself directly linked. -/
def good_loop (cells : List Cell) (c : Cell) : Bool :=
  (List.range c.links.length).all fun i =>
    (cellAt cells (c.links.getD i 0)).connected_to
      (c.links.getD ((i + 1) % c.links.length) 0)

/-- Modelled from the spec: Particle::update (not under src/) adds
dampening times delta to the position, then resets delta and the per-frame
collision accumulators. -/
def Cell.update (dampening : ℚ) (c : Cell) : Cell :=
  { c with position := c.position.add (Vec3.smul dampening c.delta)
           delta := Vec3.zero, collisions := 0, collision_target := Vec3.zero }

/-- Food policies of the simulation (enum Food). -/
inductive Food
  | RANDOM | AREA | X_COORD | RADIAL | COLLISIONS
  | CURVATURE | INHERIT | HYBRID | SHIFT | TENTACLE
deriving DecidableEq, Repr

/-- Initial geometry shapes (enum Shape). -/
inductive Shape
  | SPHERE | PLANE | ENVIRONMENT | MESH
deriving DecidableEq, Repr

/-- Split axis modes (enum Split). -/
inductive Split
  | ZERO | LONG
deriving DecidableEq, Repr

/-- Simulation context: the parameters, the build-time population ceiling,
and oracles for the pieces of behaviour outside the repository sources
(floating square root, the random stream, and the Particle methods whose
bodies are not under src/). -/
structure Ctx where
  MAX_POP : Nat
  threshold : ℚ
  max_degree : Nat
  collision_radius : ℚ
  collision_factor : ℚ
  collision_age_threshold : ℚ
  dampening : ℚ
  curvature_factor : ℤ
  food_mode : Food
  split_mode : Split
  init_shape : Shape
  /-- Oracle for the floating-point square root used by Eigen normalize and
  by Vector3d norm. -/
  sqrtQ : ℚ → ℚ
  /-- Oracle for the std rand stream, indexed by the position of the cell in
  the add-food pass. -/
  randQ : Nat → ℚ
  /-- Modelled from the spec: Particle::calculate_curvature (not under src/)
  recomputes curvature and area from the ring; it is abstracted as an oracle
  returning the new curvature, whether it is NaN, and the new area. -/
  calculate_curvature : Cell → ℚ × Bool × ℚ
  /-- Modelled from the spec: Particle::calculate (not under src/) computes
  the spring, planar and bulge contributions of one cell from a read-only
  view of the population, writing only that cell's own fields. -/
  calculate : List Cell → Cell → Cell
  /-- Modelled from the spec: Particle::split (not under src/) partitions the
  parent ring with the freshly appended child at the tail; it may rewire the
  fields of parent, child and cut neighbours but appends no cell. The Bool is
  the long-axis flag passed at the call site. -/
  particle_split : Bool → Nat → List Cell → List Cell

/-- Unsigned 32-bit modulus. -/
def UINT_MOD : Nat := 2 ^ 32

/-- Subtraction in C++ unsigned int arithmetic (wrapping modulo 2^32). -/
def uint_sub (a b : Nat) : Nat := (a % UINT_MOD + UINT_MOD - b % UINT_MOD) % UINT_MOD

/-- Worker count computed by Simulation::init from the hardware concurrency
reported by the platform: std::max of unsigned 1 and the unsigned difference
hc - 2. -/
def init_num_threads (hc : Nat) : Nat := max 1 (uint_sub hc 2)

/-- PlyLoader::connect from src/ply_loader.cpp: add each side of the edge to
the other's ring iff absent, reading the second cell after the first
mutation. -/
def connect (cells : List Cell) (i j : Nat) : List Cell :=
  let ci := cellAt cells i
  let cells1 := if ci.connected_to j then cells else cells.set i (ci.add_link j)
  let cj := cellAt cells1 j
  if cj.connected_to i then cells1 else cells1.set j (cj.add_link i)

/-- One cell of Simulation::add_food: a frozen or environs cell has its food
assigned to zero; otherwise the increment of the active food policy is
applied (branches translated from src/simulation.cpp lines 186-287). -/
def add_food_cell (ctx : Ctx) (frame : Nat) (pos : Nat) (c : Cell) : Cell :=
  if c.environs || c.frozen then { c with food := 0 }
  else
    match ctx.food_mode with
    | Food.RANDOM => { c with food := c.food + ctx.randQ pos }
    | Food.AREA => { c with food := c.food + c.area }
    | Food.X_COORD => { c with food := c.food + (c.position.x + 50) }
    | Food.RADIAL =>
        let dist := ctx.sqrtQ c.position.squaredNorm
        let dist := if dist < 1/2 then 1/2 else dist
        let dist := dist * dist
        { c with food := c.food + 100 / dist }
    | Food.COLLISIONS =>
        if c.collisions > 0 then { c with food := c.food + 1 / (c.collisions : ℚ) }
        else c
    | Food.CURVATURE =>
        let r := ctx.calculate_curvature c
        let c := { c with curvature := r.1, curvature_nan := r.2.1, area := r.2.2 }
        if !c.curvature_nan && c.curvature > 0 then
          { c with food := c.food + c.curvature ^ ctx.curvature_factor }
        else c
    | Food.INHERIT => { c with food := c.food + c.inherited }
    | Food.HYBRID =>
        let r := ctx.calculate_curvature c
        let c := { c with curvature := r.1, curvature_nan := r.2.1, area := r.2.2 }
        if !c.curvature_nan && c.curvature > 0 then
          { c with food := c.food + c.curvature * c.area }
        else c
    | Food.SHIFT =>
        if frame < 250 then { c with food := c.food + c.area }
        else
          let r := ctx.calculate_curvature c
          let c := { c with curvature := r.1, curvature_nan := r.2.1, area := r.2.2 }
          if !c.curvature_nan && c.curvature > 0 then
            { c with food := c.food + c.curvature }
          else c
    | Food.TENTACLE =>
        if c.special then
          let c := { c with food := c.food + c.area }
          if frame % 1500 = 1499 then { c with special_baby := true } else c
        else if c.generation < 2 then { c with food := c.food + c.area }
        else c

/-- Positional recursion underlying Simulation::add_food. -/
def add_food_go (ctx : Ctx) (frame : Nat) : Nat → List Cell → List Cell
  | _, [] => []
  | pos, c :: cs => add_food_cell ctx frame pos c :: add_food_go ctx frame (pos + 1) cs

/-- Simulation::add_food: the sequential pass over the whole population. -/
def add_food (ctx : Ctx) (frame : Nat) (cells : List Cell) : List Cell :=
  add_food_go ctx frame 0 cells

/-- One iteration of the loop in Simulation::split (src/simulation.cpp lines
294-338). The Bool of the state records that the early return on reaching
MAX_POP has fired, after which remaining iterations do nothing. -/
def split_step (ctx : Ctx) (s : List Cell × Bool) (i : Nat) : List Cell × Bool :=
  if s.2 then s
  else
    let cells := s.1
    let c := cellAt cells i
    if c.frozen || c.environs then s
    else if c.food > ctx.threshold || c.links.length > ctx.max_degree then
      if cells.length = ctx.MAX_POP then (cells, true)
      else if !good_loop cells c then (cells.set i { c with frozen := true }, false)
      else
        let np := cells.length
        let cells1 := cells ++ [defaultCell np]
        let long := match ctx.split_mode with | Split.LONG => true | Split.ZERO => false
        let cells2 := ctx.particle_split long i cells1
        let d := cellAt cells2 np
        let cells3 := if !good_loop cells2 d then cells2.set np { d with frozen := true }
                      else cells2
        (cells3, false)
    else s

/-- Simulation::split: a pass over the first N cells, N being the population
at the start of the phase. -/
def split (ctx : Ctx) (cells : List Cell) : List Cell :=
  ((List.range cells.length).foldl (split_step ctx) (cells, false)).1

/-- Eigen normalize of a displacement, through the square-root oracle. -/
def unitVec (ctx : Ctx) (v : Vec3) : Vec3 :=
  Vec3.smul (1 / ctx.sqrtQ v.squaredNorm) v

/-- Body of the neighbour loop of Simulation::collision_update_cell_range:
for a returned neighbour distinct from the cell and not in its ring, add the
scaled normalized displacement to collision_target and count the collision. -/
def collide_step (ctx : Ctx) (cells : List Cell) (i : Nat) (c : Cell) (qIdx : Nat) : Cell :=
  let q := cellAt cells qIdx
  let c_sq := ctx.collision_radius * ctx.collision_radius
  let disp := c.position.sub q.position
  let dist := disp.squaredNorm
  let contrib := Vec3.smul ((c_sq - dist) / c_sq) (unitVec ctx disp)
  if qIdx ≠ i && !c.connected_to qIdx then
    { c with collision_target := c.collision_target.add contrib,
             collisions := c.collisions + 1 }
  else c

/-- Simulation::collision_update_cell_range restricted to one cell: fold the
capacity-limited ball query result (the oracle queries, a list of cell
positions in the population) over the collision accumulator of that cell. -/
def collision_update_cell (ctx : Ctx) (cells : List Cell) (queries : Nat → List Nat)
    (i : Nat) : Cell :=
  (queries i).foldl (collide_step ctx cells i) (cellAt cells i)

/-- The parallel scan of Simulation::collision_tree: every cell is processed
against a read-only view of the population. -/
def collision_scan (ctx : Ctx) (queries : Nat → List Nat) (cells : List Cell) : List Cell :=
  (List.range cells.length).map (collision_update_cell ctx cells queries)

/-- The sequential finalize shared verbatim by collision_tree, collision_grid
and brute_force_collision: a cell with a nonzero collision count has its
collision_target averaged and scaled by collision_factor, and its delta
assigned from it. -/
def collision_finalize_cell (ctx : Ctx) (c : Cell) : Cell :=
  if c.collisions ≠ 0 then
    let ct := Vec3.smul (1 / (c.collisions : ℚ)) c.collision_target
    let ct := Vec3.smul ctx.collision_factor ct
    { c with collision_target := ct, delta := ct }
  else c

/-- Simulation::collision_tree with the k-d tree query as an oracle: the
parallel scan followed by the sequential finalize. -/
def collision_tree (ctx : Ctx) (queries : Nat → List Nat) (cells : List Cell) : List Cell :=
  (collision_scan ctx queries cells).map (collision_finalize_cell ctx)

/-- Body of the neighbour loop of Simulation::collision_grid: identical to
the tree path except that the squared distance is checked against the squared
radius (the grid query is not radius-filtered). -/
def collide_step_grid (ctx : Ctx) (cells : List Cell) (i : Nat) (c : Cell) (qIdx : Nat) : Cell :=
  let q := cellAt cells qIdx
  let c_sq := ctx.collision_radius * ctx.collision_radius
  let disp := c.position.sub q.position
  let dist := disp.squaredNorm
  let contrib := Vec3.smul ((c_sq - dist) / c_sq) (unitVec ctx disp)
  if qIdx ≠ i && dist < c_sq && !c.connected_to qIdx then
    { c with collision_target := c.collision_target.add contrib,
             collisions := c.collisions + 1 }
  else c

/-- One cell of the scan of Simulation::collision_grid: a cell older than
collision_age_threshold is skipped entirely; the tree path has this check
commented out. -/
def collision_update_cell_grid (ctx : Ctx) (cells : List Cell) (gqueries : Nat → List Nat)
    (i : Nat) : Cell :=
  let c := cellAt cells i
  if c.age > ctx.collision_age_threshold then c
  else (gqueries i).foldl (collide_step_grid ctx cells i) c

/-- Simulation::collision_grid with the bucket query as an oracle. -/
def collision_grid (ctx : Ctx) (gqueries : Nat → List Nat) (cells : List Cell) : List Cell :=
  ((List.range cells.length).map (collision_update_cell_grid ctx cells gqueries)).map
    (collision_finalize_cell ctx)

/-- One cell of Simulation::parallel_cpu_forces: in ENVIRONMENT shape,
environs and frozen cells are skipped; in every shape a non-frozen cell runs
Particle::calculate against a read-only view of the population. -/
def parallel_cpu_forces_cell (ctx : Ctx) (cells : List Cell) (c : Cell) : Cell :=
  if ctx.init_shape = Shape.ENVIRONMENT ∧ (c.environs || c.frozen) then c
  else if !c.frozen then ctx.calculate cells c
  else c

/-- Simulation::add_cpu_forces: the parallel force phase over all cells. -/
def add_cpu_forces (ctx : Ctx) (cells : List Cell) : List Cell :=
  cells.map (parallel_cpu_forces_cell ctx cells)

/-- Simulation::update_position: frozen cells are counted and left untouched,
every other cell integrates its delta and resets its accumulators. -/
def update_position (ctx : Ctx) (cells : List Cell) : List Cell × Nat :=
  (cells.map fun c => if c.frozen then c else Cell.update ctx.dampening c,
   (cells.filter fun c => c.frozen).length)

/-- Full engine state threaded across frames. -/
structure SimState where
  cells : List Cell
  frame_num : Nat
  frozen_num : Nat
deriving Repr

/-- Simulation::update: one frame. The growth phase (add_food then split)
runs only while the population is below MAX_POP; then collision, forces,
integration, and the frame counter increment. -/
def update (ctx : Ctx) (queries : Nat → List Nat) (st : SimState) : SimState :=
  let cells :=
    if st.cells.length < ctx.MAX_POP then split ctx (add_food ctx st.frame_num st.cells)
    else st.cells
  let cells := collision_tree ctx queries cells
  let cells := add_cpu_forces ctx cells
  let p := update_position ctx cells
  { cells := p.1, frame_num := st.frame_num + 1, frozen_num := p.2 }

/-- The V matrix of Simulation::set_matrices: one row per cell, the row at
the cell's index receiving its position. -/
def set_matrices_V (cells : List Cell) : List Vec3 :=
  cells.foldl (fun V p => V.set p.index p.position) (List.replicate cells.length Vec3.zero)

/-- The N matrix of Simulation::set_matrices: one row per cell, the row at
the cell's index receiving its normal. -/
def set_matrices_N (cells : List Cell) : List Vec3 :=
  cells.foldl (fun N p => N.set p.index p.normal) (List.replicate cells.length Vec3.zero)

/-- The face rows emitted for one cell by Simulation::set_matrices: for each
ring slot i, the row holds the cell's index, then the stable index of the
cell at ring slot (i+1) mod k, then the one at slot i. -/
def face_rows (cells : List Cell) (p : Cell) : List (Nat × Nat × Nat) :=
  (List.range p.links.length).map fun i =>
    (p.index,
     (cellAt cells (p.links.getD ((i + 1) % p.links.length) 0)).index,
     (cellAt cells (p.links.getD i 0)).index)

/-- The F matrix of Simulation::set_matrices: the face rows of every cell,
written at consecutive rows by the running cursor. -/
def set_matrices_F (cells : List Cell) : List (Nat × Nat × Nat) :=
  cells.foldl (fun F p => F ++ face_rows cells p) []

/-- Reading a cell back from the slot it was just written to. -/
theorem cellAt_set_self (cells : List Cell) (i : Nat) (c : Cell) (h : i < cells.length) :
    cellAt (cells.set i c) i = c := by
  simp [cellAt, List.getD_eq_getElem?_getD, List.getElem?_set_self h]

/-- Writing one slot leaves every other slot unchanged. -/
theorem cellAt_set_ne {cells : List Cell} {i j : Nat} {c : Cell} (h : i ≠ j) :
    cellAt (cells.set i c) j = cellAt cells j := by
  simp [cellAt, List.getD_eq_getElem?_getD, List.getElem?_set_ne h]

/-- The ring membership test agrees with list membership. -/
theorem connected_to_iff (c : Cell) (q : Nat) : c.connected_to q = true ↔ q ∈ c.links := by
  simp [Cell.connected_to]


/-- Ring of a cell after append. -/
theorem add_link_links (c : Cell) (q : Nat) : (c.add_link q).links = c.links ++ [q] := rfl

/-- A cell is connected to a neighbour just appended to its ring. -/
theorem connected_to_add_link_self (c : Cell) (q : Nat) :
    (c.add_link q).connected_to q = true := by
  simp [Cell.connected_to, add_link_links]

/-- Appending to the ring preserves every prior membership. -/
theorem connected_to_add_link_of (c : Cell) (q r : Nat) (h : c.connected_to r = true) :
    (c.add_link q).connected_to r = true := by
  simp only [Cell.connected_to, add_link_links, decide_eq_true_eq] at h ⊢
  exact List.mem_append.mpr (Or.inl h)

/-- Shape of PlyLoader::connect when the first side already knows the
second. -/
theorem connect_eq_of_fst_mem (cells : List Cell) (i j : Nat)
    (b1 : (cellAt cells i).connected_to j = true) :
    connect cells i j =
      (if (cellAt cells j).connected_to i then cells
       else cells.set j ((cellAt cells j).add_link i)) := by
  simp only [connect, b1, if_true]

/-- Shape of PlyLoader::connect when the first side does not yet know the
second. -/
theorem connect_eq_of_fst_not_mem (cells : List Cell) (i j : Nat)
    (b1 : ¬(cellAt cells i).connected_to j = true) :
    connect cells i j =
      (let cells1 := cells.set i ((cellAt cells i).add_link j)
       if (cellAt cells1 j).connected_to i then cells1
       else cells1.set j ((cellAt cells1 j).add_link i)) := by
  simp only [connect, b1, if_false, Bool.not_eq_true] at *
  simp [b1]

/-- Ring of the first argument after PlyLoader::connect: its partner is
appended iff it was absent. -/
theorem connect_links_fst (cells : List Cell) (i j : Nat) (hi : i < cells.length) :
    (cellAt (connect cells i j) i).links =
      (if j ∈ (cellAt cells i).links then (cellAt cells i).links
       else (cellAt cells i).links ++ [j]) := by
  by_cases b1 : (cellAt cells i).connected_to j = true
  · have hmem : j ∈ (cellAt cells i).links := (connected_to_iff _ _).mp b1
    rw [if_pos hmem, connect_eq_of_fst_mem cells i j b1]
    by_cases b2 : (cellAt cells j).connected_to i = true
    · rw [if_pos b2]
    · have hij : i ≠ j := by
        intro h
        subst h
        exact b2 b1
      rw [if_neg b2, cellAt_set_ne (Ne.symm hij)]
  · have hmem : j ∉ (cellAt cells i).links := fun h => b1 ((connected_to_iff _ _).mpr h)
    rw [if_neg hmem, connect_eq_of_fst_not_mem cells i j b1]
    by_cases hij : i = j
    · subst hij
      have hset : cellAt (cells.set i ((cellAt cells i).add_link i)) i
          = (cellAt cells i).add_link i := cellAt_set_self _ _ _ hi
      simp only [hset, connected_to_add_link_self, if_true, add_link_links]
    · have hset : cellAt (cells.set i ((cellAt cells i).add_link j)) j = cellAt cells j :=
        cellAt_set_ne hij
      simp only [hset]
      by_cases b2 : (cellAt cells j).connected_to i = true
      · rw [if_pos b2, cellAt_set_self _ _ _ hi, add_link_links]
      · rw [if_neg b2, cellAt_set_ne (Ne.symm hij), cellAt_set_self _ _ _ hi, add_link_links]

/-- Ring of the second argument after PlyLoader::connect for a pair of
distinct cells: its partner is appended iff it was absent. -/
theorem connect_links_snd (cells : List Cell) (i j : Nat) (hj : j < cells.length)
    (hij : i ≠ j) :
    (cellAt (connect cells i j) j).links =
      (if i ∈ (cellAt cells j).links then (cellAt cells j).links
       else (cellAt cells j).links ++ [i]) := by
  by_cases b1 : (cellAt cells i).connected_to j = true
  · rw [connect_eq_of_fst_mem cells i j b1]
    by_cases b2 : (cellAt cells j).connected_to i = true
    · rw [if_pos b2, if_pos ((connected_to_iff _ _).mp b2)]
    · have hmem : i ∉ (cellAt cells j).links := fun h => b2 ((connected_to_iff _ _).mpr h)
      rw [if_neg b2, if_neg hmem, cellAt_set_self _ _ _ hj, add_link_links]
  · rw [connect_eq_of_fst_not_mem cells i j b1]
    have hset : cellAt (cells.set i ((cellAt cells i).add_link j)) j = cellAt cells j :=
      cellAt_set_ne hij
    simp only [hset]
    by_cases b2 : (cellAt cells j).connected_to i = true
    · rw [if_pos b2, if_pos ((connected_to_iff _ _).mp b2), hset]
    · have hmem : i ∉ (cellAt cells j).links := fun h => b2 ((connected_to_iff _ _).mpr h)
      have hj1 : j < (cells.set i ((cellAt cells i).add_link j)).length := by
        simpa using hj
      rw [if_neg b2, if_neg hmem, cellAt_set_self _ _ _ hj1, add_link_links]

/-- PlyLoader::connect commutes in its two arguments. -/
theorem connect_comm (cells : List Cell) (i j : Nat) :
    connect cells i j = connect cells j i := by
  by_cases hij : i = j
  · subst hij
    rfl
  · by_cases b1 : (cellAt cells i).connected_to j = true
    · by_cases b2 : (cellAt cells j).connected_to i = true
      · rw [connect_eq_of_fst_mem cells i j b1, connect_eq_of_fst_mem cells j i b2,
          if_pos b1, if_pos b2]
      · rw [connect_eq_of_fst_mem cells i j b1, connect_eq_of_fst_not_mem cells j i b2,
          if_neg b2]
        have hset : cellAt (cells.set j ((cellAt cells j).add_link i)) i = cellAt cells i :=
          cellAt_set_ne (Ne.symm hij)
        simp only [hset]
        rw [if_pos b1]
    · by_cases b2 : (cellAt cells j).connected_to i = true
      · rw [connect_eq_of_fst_not_mem cells i j b1, connect_eq_of_fst_mem cells j i b2,
          if_neg b1]
        have hset : cellAt (cells.set i ((cellAt cells i).add_link j)) j = cellAt cells j :=
          cellAt_set_ne hij
        simp only [hset]
        rw [if_pos b2]
      · rw [connect_eq_of_fst_not_mem cells i j b1, connect_eq_of_fst_not_mem cells j i b2]
        have hs1 : cellAt (cells.set i ((cellAt cells i).add_link j)) j = cellAt cells j :=
          cellAt_set_ne hij
        have hs2 : cellAt (cells.set j ((cellAt cells j).add_link i)) i = cellAt cells i :=
          cellAt_set_ne (Ne.symm hij)
        simp only [hs1, hs2, b1, b2, if_false, Bool.false_eq_true, ite_false]
        exact List.set_comm _ _ _ hij

/-- After PlyLoader::connect the first side knows the second. -/
theorem connect_mem_fst (cells : List Cell) (i j : Nat) (hi : i < cells.length) :
    j ∈ (cellAt (connect cells i j) i).links := by
  rw [connect_links_fst cells i j hi]
  by_cases h : j ∈ (cellAt cells i).links
  · rwa [if_pos h]
  · rw [if_neg h]
    exact List.mem_append.mpr (Or.inr (List.mem_singleton.mpr rfl))

/-- After PlyLoader::connect the second side knows the first. -/
theorem connect_mem_snd (cells : List Cell) (i j : Nat) (hi : i < cells.length)
    (hj : j < cells.length) :
    i ∈ (cellAt (connect cells i j) j).links := by
  by_cases hij : i = j
  · subst hij
    exact connect_mem_fst cells i i hi
  · rw [connect_links_snd cells i j hj hij]
    by_cases h : i ∈ (cellAt cells j).links
    · rwa [if_pos h]
    · rw [if_neg h]
      exact List.mem_append.mpr (Or.inr (List.mem_singleton.mpr rfl))

/-- PlyLoader::connect applied twice to the same pair changes nothing. -/
theorem connect_idem (cells : List Cell) (i j : Nat) (hi : i < cells.length)
    (hj : j < cells.length) :
    connect (connect cells i j) i j = connect cells i j := by
  have h1 : (cellAt (connect cells i j) i).connected_to j = true :=
    (connected_to_iff _ _).mpr (connect_mem_fst cells i j hi)
  have h2 : (cellAt (connect cells i j) j).connected_to i = true :=
    (connected_to_iff _ _).mpr (connect_mem_snd cells i j hi hj)
  rw [connect_eq_of_fst_mem _ i j h1, if_pos h2]

/-- C9: PlyLoader::connect is idempotent (a second call with the same
arguments changes no ring), commutative (both argument orders produce the
same link state), after a call each side of the pair is in the other's ring
(so ring membership is mutually equivalent for the pair), and each side is
appended exactly when it was absent. -/
theorem connect_laws (cells : List Cell) (i j : Nat)
    (hi : i < cells.length) (hj : j < cells.length) :
    connect (connect cells i j) i j = connect cells i j ∧
    connect cells i j = connect cells j i ∧
    (j ∈ (cellAt (connect cells i j) i).links ↔ i ∈ (cellAt (connect cells i j) j).links) ∧
    (cellAt (connect cells i j) i).links =
      (if j ∈ (cellAt cells i).links then (cellAt cells i).links
       else (cellAt cells i).links ++ [j]) ∧
    (i ≠ j → (cellAt (connect cells i j) j).links =
      (if i ∈ (cellAt cells j).links then (cellAt cells j).links
       else (cellAt cells j).links ++ [i])) := by
  refine ⟨connect_idem cells i j hi hj, connect_comm cells i j, ?_,
    connect_links_fst cells i j hi, fun hij => connect_links_snd cells i j hj hij⟩
  constructor
  · intro _
    exact connect_mem_snd cells i j hi hj
  · intro _
    exact connect_mem_fst cells i j hi

/-- Witness for C9 on a concrete two-cell population. -/
theorem connect_laws_witness :
    connect (connect [defaultCell 0, defaultCell 1] 0 1) 0 1
        = connect [defaultCell 0, defaultCell 1] 0 1 ∧
      connect [defaultCell 0, defaultCell 1] 0 1 = connect [defaultCell 0, defaultCell 1] 1 0 :=
  ⟨(connect_laws [defaultCell 0, defaultCell 1] 0 1 (by simp) (by simp)).1,
   (connect_laws [defaultCell 0, defaultCell 1] 0 1 (by simp) (by simp)).2.1⟩

/-- C7: Simulation::init computes the worker count as std::max of unsigned 1
and the unsigned difference hc - 2, so a reported hardware concurrency of 1
wraps to 2^32 - 1 workers and 0 wraps to 2^32 - 2, where the specified
formula max(1, hc - 2) over the integers demands 1; for hc at least 2 the
two agree (samples at 2 and 4). -/
theorem init_num_threads_unsigned_wrap :
    init_num_threads 1 = 4294967295 ∧ init_num_threads 0 = 4294967294 ∧
    init_num_threads 2 = 1 ∧ init_num_threads 4 = 2 ∧
    max 1 ((1 : ℤ) - 2) = 1 ∧ max 1 ((0 : ℤ) - 2) = 1 := by
  refine ⟨by decide, by decide, by decide, by decide, by decide, by decide⟩

/-- Reading one slot of the cons cell list. -/
theorem cellAt_cons_succ (c : Cell) (cs : List Cell) (n : Nat) :
    cellAt (c :: cs) (n + 1) = cellAt cs n := rfl

/-- Reading the head slot of the cons cell list. -/
theorem cellAt_cons_zero (c : Cell) (cs : List Cell) : cellAt (c :: cs) 0 = c := rfl

/-- The add-food pass preserves the population size. -/
theorem add_food_go_length (ctx : Ctx) (frame : Nat) :
    ∀ (p : Nat) (cells : List Cell), (add_food_go ctx frame p cells).length = cells.length := by
  intro p cells
  induction cells generalizing p with
  | nil => rfl
  | cons c cs ih => simp [add_food_go, ih]

/-- Pointwise characterization of the add-food pass. -/
theorem add_food_go_cellAt (ctx : Ctx) (frame : Nat) :
    ∀ (cells : List Cell) (p idx : Nat), idx < cells.length →
      cellAt (add_food_go ctx frame p cells) idx
        = add_food_cell ctx frame (p + idx) (cellAt cells idx) := by
  intro cells
  induction cells with
  | nil =>
    intro p idx h
    simp at h
  | cons c cs ih =>
    intro p idx h
    cases idx with
    | zero => simp [add_food_go, cellAt_cons_zero]
    | succ n =>
      have hn : n < cs.length := by simpa using Nat.lt_of_succ_lt_succ h
      have := ih (p + 1) n hn
      simp only [add_food_go, cellAt_cons_succ, this]
      ring_nf

/-- Pointwise characterization of Simulation::add_food. -/
theorem add_food_cellAt (ctx : Ctx) (frame : Nat) (cells : List Cell) (idx : Nat)
    (h : idx < cells.length) :
    cellAt (add_food ctx frame cells) idx = add_food_cell ctx frame idx (cellAt cells idx) := by
  simpa using add_food_go_cellAt ctx frame cells 0 idx h

/-- A concrete context for witnesses and counterexamples: small ceiling,
threshold 1, identity oracles, a Particle::split model that rewires
nothing. -/
def ctx0 : Ctx :=
  { MAX_POP := 5, threshold := 1, max_degree := 9, collision_radius := 2
    collision_factor := 1, collision_age_threshold := 1, dampening := 1
    curvature_factor := 2, food_mode := Food.AREA, split_mode := Split.ZERO
    init_shape := Shape.SPHERE, sqrtQ := fun _ => 1, randQ := fun _ => 0
    calculate_curvature := fun _ => (2, false, 0), calculate := fun _ c => c
    particle_split := fun _ _ cs => cs }

/-- C10 (amended): on every call add_food assigns food = 0 to each frozen or
environs cell, touching no other field and applying no increment — so
immediately after add_food every frozen or environs cell has food 0. A cell
frozen later in the same growth phase, during split, can retain nonzero
food, so the zero-food consequence holds after add_food, not after the whole
growth phase. -/
theorem add_food_assigns_zero_food (ctx : Ctx) (frame : Nat) (cells : List Cell) (idx : Nat)
    (h : idx < cells.length)
    (hfe : (cellAt cells idx).frozen = true ∨ (cellAt cells idx).environs = true) :
    cellAt (add_food ctx frame cells) idx = { cellAt cells idx with food := 0 } := by
  rw [add_food_cellAt ctx frame cells idx h]
  unfold add_food_cell
  rcases hfe with h1 | h1 <;> simp [h1]

/-- Witness for C10 on a frozen cell carrying nonzero food. -/
theorem add_food_assigns_zero_food_witness :
    cellAt (add_food ctx0 0 [{ defaultCell 0 with frozen := true, food := 7 }]) 0
      = { { defaultCell 0 with frozen := true, food := 7 } with food := 0 } :=
  add_food_assigns_zero_food ctx0 0 [{ defaultCell 0 with frozen := true, food := 7 }] 0
    (by simp) (Or.inl rfl)

/-- A three-cell population whose head is saturated with food but has a ring
that is not a good loop (its two neighbours are not linked to each other). -/
def cells_bad_loop : List Cell :=
  [{ defaultCell 0 with links := [1, 2], food := 10 },
   { defaultCell 1 with links := [0] },
   { defaultCell 2 with links := [0] }]

/-- Counterexample to C10 as stated: after a full growth phase (add_food
then split) under the AREA policy, the head cell has been frozen by split
because its ring is not a good loop, yet its food is 10, not 0. -/
theorem growth_phase_frozen_cell_keeps_food :
    (cellAt (split ctx0 (add_food ctx0 0 cells_bad_loop)) 0).frozen = true ∧
    (cellAt (split ctx0 (add_food ctx0 0 cells_bad_loop)) 0).food = 10 ∧
    (10 : ℚ) ≠ 0 := by
  have h1 : add_food ctx0 0 cells_bad_loop = cells_bad_loop := by
    norm_num [add_food, add_food_go, add_food_cell, ctx0, cells_bad_loop, defaultCell]
  rw [h1]
  norm_num [split, split_step, good_loop, cellAt, ctx0, cells_bad_loop, defaultCell,
    Cell.connected_to, List.range_succ]

/-- The context ctx0 with the SHIFT food policy. -/
def ctx_shift : Ctx := { ctx0 with food_mode := Food.SHIFT }

/-- The context ctx0 with the CURVATURE food policy. -/
def ctx_curv : Ctx := { ctx0 with food_mode := Food.CURVATURE }

/-- Counterexample to C6 as stated: at frame 250 under SHIFT, a cell whose
recomputed curvature is 2 (finite, positive) with curvature_factor 2 gains
food 2, the curvature itself — while the CURVATURE policy increment, which
the claim says SHIFT applies after frame 249, would be 2^2 = 4. -/
theorem shift_after_250_not_curvature_pow :
    (cellAt (add_food ctx_shift 250 [defaultCell 0]) 0).food = 2 ∧
    (cellAt (add_food ctx_curv 250 [defaultCell 0]) 0).food = 4 ∧
    ((2 : ℚ) ≠ 4) := by
  refine ⟨?_, ?_, by norm_num⟩
  · norm_num [add_food, add_food_go, add_food_cell, ctx_shift, ctx0, defaultCell, cellAt]
  · norm_num [add_food, add_food_go, add_food_cell, ctx_curv, ctx0, defaultCell, cellAt]

/-- C6 (amended): under SHIFT every non-frozen non-environs cell receives
the AREA increment (its stored one-ring area) on every frame below 250; on
every later frame its curvature and area are recomputed and it receives the
recomputed curvature itself — not curvature raised to curvature_factor —
when that curvature is finite (not NaN) and positive, and nothing
otherwise. -/
theorem add_food_shift_cases (ctx : Ctx) (frame : Nat) (cells : List Cell) (idx : Nat)
    (h : idx < cells.length) (hm : ctx.food_mode = Food.SHIFT)
    (hf : (cellAt cells idx).frozen = false) (he : (cellAt cells idx).environs = false) :
    cellAt (add_food ctx frame cells) idx =
      (if frame < 250 then
        { cellAt cells idx with food := (cellAt cells idx).food + (cellAt cells idx).area }
       else
        (let r := ctx.calculate_curvature (cellAt cells idx)
         let c1 := { cellAt cells idx with
                       curvature := r.1, curvature_nan := r.2.1, area := r.2.2 }
         if r.2.1 = false ∧ 0 < r.1 then { c1 with food := c1.food + r.1 } else c1)) := by
  rw [add_food_cellAt ctx frame cells idx h]
  unfold add_food_cell
  rw [hm]
  simp only [hf, he, Bool.or_self, if_false, Bool.false_eq_true]
  by_cases h250 : frame < 250
  · simp [h250]
  · simp only [h250, if_false]
    by_cases hcp : (ctx.calculate_curvature (cellAt cells idx)).2.1 = false
        ∧ 0 < (ctx.calculate_curvature (cellAt cells idx)).1
    · simp [hcp.1, hcp.2]
    · rw [if_neg hcp]
      rcases Decidable.not_and_iff_or_not.mp hcp with h1 | h1
      · have h1t : (ctx.calculate_curvature (cellAt cells idx)).2.1 = true :=
          Bool.not_eq_false _ ▸ (by simpa using h1)
        simp [h1t]
      · have h1t : ¬ 0 < (ctx.calculate_curvature (cellAt cells idx)).1 := h1
        simp [h1t]

/-- Witness for the amended C6 at frame 250 on a single fresh cell. -/
theorem add_food_shift_cases_witness :
    cellAt (add_food ctx_shift 250 [defaultCell 0]) 0 =
      (if 250 < 250 then
        { cellAt [defaultCell 0] 0 with
            food := (cellAt [defaultCell 0] 0).food + (cellAt [defaultCell 0] 0).area }
       else
        (let r := ctx_shift.calculate_curvature (cellAt [defaultCell 0] 0)
         let c1 := { cellAt [defaultCell 0] 0 with
                       curvature := r.1, curvature_nan := r.2.1, area := r.2.2 }
         if r.2.1 = false ∧ 0 < r.1 then { c1 with food := c1.food + r.1 } else c1)) :=
  add_food_shift_cases ctx_shift 250 [defaultCell 0] 0 (by simp) rfl rfl rfl

/-- Vector addition is associative. -/
theorem Vec3.add_assoc (a b c : Vec3) : (a.add b).add c = a.add (b.add c) := by
  simp only [Vec3.add, Vec3.mk.injEq]
  refine ⟨by ring, by ring, by ring⟩

/-- The zero vector is a right unit for addition. -/
theorem Vec3.add_zero_right (a : Vec3) : a.add Vec3.zero = a := by
  simp [Vec3.add, Vec3.zero]

/-- Sum of a list of vectors. -/
def vec_sum : List Vec3 → Vec3
  | [] => Vec3.zero
  | v :: vs => v.add (vec_sum vs)

/-- Predicate under which the collision scan of the k-d tree path counts a
returned neighbour for a cell: a distinct cell that is not in the ring. -/
def collision_counted (i : Nat) (p : Cell) (q : Nat) : Bool :=
  decide (q ≠ i) && !p.connected_to q

/-- The vector added per counted neighbour: the displacement away from the
neighbour, normalized, scaled by (r^2 - d^2)/r^2. -/
def collision_contribution (ctx : Ctx) (cells : List Cell) (i qIdx : Nat) : Vec3 :=
  let p := cellAt cells i
  let q := cellAt cells qIdx
  let c_sq := ctx.collision_radius * ctx.collision_radius
  let disp := p.position.sub q.position
  Vec3.smul ((c_sq - disp.squaredNorm) / c_sq) (unitVec ctx disp)

/-- Ring membership depends only on the ring. -/
theorem connected_to_congr {c d : Cell} (h : c.links = d.links) (q : Nat) :
    c.connected_to q = d.connected_to q := by
  simp [Cell.connected_to, h]

/-- One accepted neighbour of the tree-path scan adds exactly the collision
contribution and one collision. -/
theorem collide_step_accepted (ctx : Ctx) (cells : List Cell) (i : Nat) (c : Cell) (q : Nat)
    (hp : c.position = (cellAt cells i).position) (hl : c.links = (cellAt cells i).links)
    (hacc : collision_counted i (cellAt cells i) q = true) :
    collide_step ctx cells i c q =
      { c with
          collision_target := c.collision_target.add (collision_contribution ctx cells i q),
          collisions := c.collisions + 1 } := by
  unfold collision_counted at hacc
  simp only [collide_step, collision_contribution]
  rw [connected_to_congr hl, hp, hacc]
  simp

/-- A rejected neighbour of the tree-path scan changes nothing. -/
theorem collide_step_rejected (ctx : Ctx) (cells : List Cell) (i : Nat) (c : Cell) (q : Nat)
    (hl : c.links = (cellAt cells i).links)
    (hacc : collision_counted i (cellAt cells i) q = false) :
    collide_step ctx cells i c q = c := by
  unfold collision_counted at hacc
  simp only [collide_step]
  rw [connected_to_congr hl, hacc]
  simp

/-- Characterization of the neighbour fold of the tree-path collision scan:
collisions grow by the number of counted neighbours and collision_target by
the sum of their contributions. -/
theorem collide_foldl (ctx : Ctx) (cells : List Cell) (i : Nat) :
    ∀ (qs : List Nat) (c : Cell),
      c.position = (cellAt cells i).position → c.links = (cellAt cells i).links →
      qs.foldl (collide_step ctx cells i) c =
        { c with
            collisions :=
              c.collisions + (qs.filter (collision_counted i (cellAt cells i))).length,
            collision_target := c.collision_target.add
              (vec_sum ((qs.filter (collision_counted i (cellAt cells i))).map
                (collision_contribution ctx cells i))) } := by
  intro qs
  induction qs with
  | nil =>
    intro c hp hl
    simp [vec_sum, Vec3.add_zero_right]
  | cons q qs ih =>
    intro c hp hl
    by_cases hacc : collision_counted i (cellAt cells i) q = true
    · have hstep := collide_step_accepted ctx cells i c q hp hl hacc
      have hih := ih { c with
          collision_target := c.collision_target.add (collision_contribution ctx cells i q),
          collisions := c.collisions + 1 } hp hl
      rw [List.foldl_cons, hstep, hih]
      have hfilter : (q :: qs).filter (collision_counted i (cellAt cells i))
          = q :: qs.filter (collision_counted i (cellAt cells i)) := by
        simp [List.filter_cons, hacc]
      rw [hfilter]
      have hcnt : c.collisions + 1 + (qs.filter (collision_counted i (cellAt cells i))).length
          = c.collisions + (q :: qs.filter (collision_counted i (cellAt cells i))).length := by
        simp [List.length_cons]
        omega
      have htgt : (c.collision_target.add (collision_contribution ctx cells i q)).add
            (vec_sum ((qs.filter (collision_counted i (cellAt cells i))).map
              (collision_contribution ctx cells i)))
          = c.collision_target.add
              (vec_sum (((q :: qs.filter (collision_counted i (cellAt cells i)))).map
                (collision_contribution ctx cells i))) := by
        simp [vec_sum, Vec3.add_assoc]
      rw [hcnt, htgt]
    · have hacc' : collision_counted i (cellAt cells i) q = false :=
        Bool.not_eq_true _ ▸ (by simpa using hacc)
      have hstep := collide_step_rejected ctx cells i c q hl hacc'
      have hfilter : (q :: qs).filter (collision_counted i (cellAt cells i))
          = qs.filter (collision_counted i (cellAt cells i)) := by
        simp [List.filter_cons, hacc']
      rw [List.foldl_cons, hstep, ih c hp hl, hfilter]

/-- Reading a slot of a map over a range. -/
theorem cellAt_range_map (f : Nat → Cell) (n idx : Nat) (h : idx < n) :
    cellAt ((List.range n).map f) idx = f idx := by
  simp [cellAt, List.getD_eq_getElem?_getD, List.getElem?_map, List.getElem?_range h]

/-- Reading a slot of a mapped cell list. -/
theorem cellAt_map (g : Cell → Cell) (l : List Cell) (idx : Nat) (h : idx < l.length) :
    cellAt (l.map g) idx = g (cellAt l idx) := by
  have h' : idx < (l.map g).length := by simpa using h
  simp [cellAt, List.getD_eq_getElem?_getD, List.getElem?_map,
    List.getElem?_eq_getElem h, List.getElem?_eq_getElem h']

/-- C1: in the tree-path collision phase, every queried neighbour q of a
cell p with q distinct from p and q not a member of the ring of p adds the
vector ((r^2 - d^2)/r^2) (p - q)/norm(p - q) to collision_target of p and
increments its collisions by one (collisions grow by the number of such
neighbours, collision_target by the sum of their contributions); afterwards
every cell with a nonzero collision count has its delta assigned — over any
residual value — collision_factor times the average of collision_target,
and a cell with zero collisions keeps its delta. -/
theorem collision_tree_spec (ctx : Ctx) (queries : Nat → List Nat) (cells : List Cell)
    (idx : Nat) (h : idx < cells.length) :
    collision_update_cell ctx cells queries idx =
      { cellAt cells idx with
          collisions := (cellAt cells idx).collisions +
            ((queries idx).filter (collision_counted idx (cellAt cells idx))).length,
          collision_target := (cellAt cells idx).collision_target.add
            (vec_sum (((queries idx).filter (collision_counted idx (cellAt cells idx))).map
              (collision_contribution ctx cells idx))) } ∧
    cellAt (collision_tree ctx queries cells) idx =
      collision_finalize_cell ctx (collision_update_cell ctx cells queries idx) ∧
    ((collision_update_cell ctx cells queries idx).collisions ≠ 0 →
      (cellAt (collision_tree ctx queries cells) idx).delta =
        Vec3.smul ctx.collision_factor
          (Vec3.smul (1 / ((collision_update_cell ctx cells queries idx).collisions : ℚ))
            (collision_update_cell ctx cells queries idx).collision_target)) ∧
    ((collision_update_cell ctx cells queries idx).collisions = 0 →
      (cellAt (collision_tree ctx queries cells) idx).delta = (cellAt cells idx).delta) := by
  have hscan : collision_update_cell ctx cells queries idx =
      { cellAt cells idx with
          collisions := (cellAt cells idx).collisions +
            ((queries idx).filter (collision_counted idx (cellAt cells idx))).length,
          collision_target := (cellAt cells idx).collision_target.add
            (vec_sum (((queries idx).filter (collision_counted idx (cellAt cells idx))).map
              (collision_contribution ctx cells idx))) } := by
    unfold collision_update_cell
    exact collide_foldl ctx cells idx (queries idx) (cellAt cells idx) rfl rfl
  have hread : cellAt (collision_tree ctx queries cells) idx =
      collision_finalize_cell ctx (collision_update_cell ctx cells queries idx) := by
    unfold collision_tree collision_scan
    rw [cellAt_map _ _ idx (by simpa using h), cellAt_range_map _ _ idx h]
  refine ⟨hscan, hread, ?_, ?_⟩
  · intro hnz
    rw [hread]
    unfold collision_finalize_cell
    simp [hnz]
  · intro hz
    rw [hread]
    unfold collision_finalize_cell
    rw [if_neg (by simp [hz])]
    rw [hscan]

/-- A concrete two-cell population for the collision phase: the head cell is
frozen, old (age 5) and at the origin; the second sits one unit away and is
not linked to it. -/
def cells_pair : List Cell :=
  [{ defaultCell 0 with frozen := true, age := 5 },
   { defaultCell 1 with position := ⟨1, 0, 0⟩ }]

/-- A concrete capacity-limited query oracle returning cell 1 everywhere. -/
def q_ce : Nat → List Nat := fun _ => [1]

/-- Witness for C1 on the concrete pair: the head cell counts one collision
and its delta is assigned the scaled averaged contribution. -/
theorem collision_tree_spec_witness :
    collision_update_cell ctx0 cells_pair q_ce 0 =
      { cellAt cells_pair 0 with
          collisions := (cellAt cells_pair 0).collisions +
            ((q_ce 0).filter (collision_counted 0 (cellAt cells_pair 0))).length,
          collision_target := (cellAt cells_pair 0).collision_target.add
            (vec_sum (((q_ce 0).filter (collision_counted 0 (cellAt cells_pair 0))).map
              (collision_contribution ctx0 cells_pair 0))) } ∧
    cellAt (collision_tree ctx0 q_ce cells_pair) 0 =
      collision_finalize_cell ctx0 (collision_update_cell ctx0 cells_pair q_ce 0) :=
  ⟨(collision_tree_spec ctx0 q_ce cells_pair 0 (by simp [cells_pair])).1,
   (collision_tree_spec ctx0 q_ce cells_pair 0 (by simp [cells_pair])).2.1⟩

/-- Counterexample to C4 as stated: the sequential collision finalize of
collision_tree has no frozen check, so the frozen head cell of the concrete
pair — whose delta was zero — has its delta assigned from collision_target
after one collision with the unlinked cell one unit away. -/
theorem frozen_cell_delta_assigned_in_finalize :
    (cellAt cells_pair 0).frozen = true ∧
    (cellAt cells_pair 0).delta = Vec3.zero ∧
    (cellAt (collision_tree ctx0 q_ce cells_pair) 0).delta = ⟨-3/4, 0, 0⟩ ∧
    ((⟨-3/4, 0, 0⟩ : Vec3) ≠ Vec3.zero) := by
  refine ⟨rfl, rfl, ?_, by simp [Vec3.zero, Vec3.mk.injEq]⟩
  norm_num [collision_tree, collision_scan, collision_update_cell, collide_step, cellAt,
    collision_finalize_cell, ctx0, cells_pair, q_ce, defaultCell, Cell.connected_to,
    unitVec, Vec3.sub, Vec3.squaredNorm, Vec3.smul, Vec3.add, Vec3.zero, List.range_succ]

/-- C4 (amended): a frozen cell is ignored by growth (its food is assigned
zero and never incremented, and its iteration of the split loop changes
nothing), by the force phase (Particle::calculate is not run on it, whatever
that computation is), and by integration (Particle::update is not run on
it); the collision finalize, however, assigns delta from collision_target to
any cell with a nonzero collision count, frozen or not — the assignment
stays inert because integration skips frozen cells. -/
theorem frozen_cell_ignored (ctx : Ctx) (frame : Nat) (cells : List Cell) (idx : Nat)
    (h : idx < cells.length) (hf : (cellAt cells idx).frozen = true) :
    cellAt (add_food ctx frame cells) idx = { cellAt cells idx with food := 0 } ∧
    split_step ctx (cells, false) idx = (cells, false) ∧
    cellAt (add_cpu_forces ctx cells) idx = cellAt cells idx ∧
    cellAt (update_position ctx cells).1 idx = cellAt cells idx ∧
    (∀ c : Cell, c.collisions ≠ 0 →
      (collision_finalize_cell ctx c).delta =
        Vec3.smul ctx.collision_factor
          (Vec3.smul (1 / (c.collisions : ℚ)) c.collision_target)) := by
  refine ⟨add_food_assigns_zero_food ctx frame cells idx h (Or.inl hf), ?_, ?_, ?_, ?_⟩
  · simp [split_step, hf]
  · unfold add_cpu_forces
    rw [cellAt_map _ _ idx h]
    unfold parallel_cpu_forces_cell
    by_cases hs : ctx.init_shape = Shape.ENVIRONMENT
    · simp [hs, hf]
    · simp [hs, hf]
  · unfold update_position
    rw [cellAt_map _ _ idx h]
    simp [hf]
  · intro c hnz
    unfold collision_finalize_cell
    simp [hnz]

/-- Witness for the amended C4 on the concrete frozen cell of the pair. -/
theorem frozen_cell_ignored_witness :
    cellAt (add_cpu_forces ctx0 cells_pair) 0 = cellAt cells_pair 0 ∧
    cellAt (update_position ctx0 cells_pair).1 0 = cellAt cells_pair 0 :=
  ⟨(frozen_cell_ignored ctx0 0 cells_pair 0 (by simp [cells_pair]) rfl).2.2.1,
   (frozen_cell_ignored ctx0 0 cells_pair 0 (by simp [cells_pair]) rfl).2.2.2.1⟩

/-- Counterexample to C5 as stated: with the identical neighbour query fed
to both paths and the neighbour well inside the radius, the two collision
paths disagree on the concrete pair because collision_grid skips the head
cell (age 5 exceeds collision_age_threshold 1) while collision_tree has
that check commented out. -/
theorem collision_paths_diverge_on_age :
    (cellAt (collision_tree ctx0 q_ce cells_pair) 0).collisions = 1 ∧
    (cellAt (collision_grid ctx0 q_ce cells_pair) 0).collisions = 0 ∧
    (cellAt (collision_tree ctx0 q_ce cells_pair) 0).delta ≠
      (cellAt (collision_grid ctx0 q_ce cells_pair) 0).delta := by
  refine ⟨?_, ?_, ?_⟩ <;>
    norm_num [collision_tree, collision_scan, collision_update_cell, collide_step,
      collision_grid, collision_update_cell_grid, collide_step_grid, cellAt,
      collision_finalize_cell, ctx0, cells_pair, q_ce, defaultCell, Cell.connected_to,
      unitVec, Vec3.sub, Vec3.squaredNorm, Vec3.smul, Vec3.add, Vec3.zero, Vec3.mk.injEq,
      List.range_succ]

/-- The grid-path neighbour step never moves the cell. -/
theorem collide_step_grid_position (ctx : Ctx) (cells : List Cell) (i : Nat) (c : Cell)
    (q : Nat) : (collide_step_grid ctx cells i c q).position = c.position := by
  simp only [collide_step_grid]
  split
  · rfl
  · rfl

/-- The neighbour folds of the two collision paths agree when every queried
neighbour lies strictly within the collision radius. -/
theorem collide_fold_eq_grid (ctx : Ctx) (cells : List Cell) (i : Nat) :
    ∀ (qs : List Nat) (c : Cell), c.position = (cellAt cells i).position →
      (∀ qi ∈ qs, ((cellAt cells i).position.sub (cellAt cells qi).position).squaredNorm
          < ctx.collision_radius * ctx.collision_radius) →
      qs.foldl (collide_step ctx cells i) c = qs.foldl (collide_step_grid ctx cells i) c := by
  intro qs
  induction qs with
  | nil => intro c hp hin; rfl
  | cons q qs ih =>
    intro c hp hin
    rw [List.foldl_cons, List.foldl_cons]
    have hd : ((cellAt cells i).position.sub (cellAt cells q).position).squaredNorm
        < ctx.collision_radius * ctx.collision_radius := hin q (by simp)
    have hstep : collide_step ctx cells i c q = collide_step_grid ctx cells i c q := by
      unfold collide_step collide_step_grid
      rw [hp]
      simp [hd]
    rw [hstep]
    apply ih
    · rw [collide_step_grid_position]
      exact hp
    · intro qi hqi
      exact hin qi (by simp [hqi])

/-- Reading beyond the end of the population yields the default cell. -/
theorem cellAt_out (l : List Cell) (i : Nat) (h : l.length ≤ i) :
    cellAt l i = defaultCell 0 := by
  simp [cellAt, List.getD_eq_getElem?_getD, List.getElem?_eq_none h]

/-- C5 (amended): the grid-based collision phase matches the k-d tree
collision phase on a cell whenever that cell's age does not exceed
collision_age_threshold and the two accelerators return the same neighbour
set, all strictly within the collision radius; without the age hypothesis
the paths diverge, because only collision_grid performs the age skip. -/
theorem collision_paths_agree (ctx : Ctx) (cells : List Cell) (q : Nat → List Nat) (i : Nat)
    (hage : ¬(cellAt cells i).age > ctx.collision_age_threshold)
    (hin : ∀ qi ∈ q i, ((cellAt cells i).position.sub (cellAt cells qi).position).squaredNorm
        < ctx.collision_radius * ctx.collision_radius) :
    cellAt (collision_tree ctx q cells) i = cellAt (collision_grid ctx q cells) i := by
  by_cases h : i < cells.length
  · unfold collision_tree collision_scan collision_grid
    rw [cellAt_map _ _ i (by simpa using h), cellAt_map _ _ i (by simpa using h),
      cellAt_range_map _ _ i h, cellAt_range_map _ _ i h]
    have hscan : collision_update_cell ctx cells q i = collision_update_cell_grid ctx cells q i := by
      unfold collision_update_cell collision_update_cell_grid
      rw [if_neg hage]
      exact collide_fold_eq_grid ctx cells i (q i) (cellAt cells i) rfl hin
    rw [hscan]
  · have hn : cells.length ≤ i := Nat.le_of_not_lt h
    rw [cellAt_out _ i (by simp [collision_tree, collision_scan, hn]),
      cellAt_out _ i (by simp [collision_grid, hn])]

/-- A concrete pair of young unlinked cells one unit apart. -/
def cells_close : List Cell :=
  [defaultCell 0, { defaultCell 1 with position := ⟨1, 0, 0⟩ }]

/-- Witness for the amended C5 on the young pair. -/
theorem collision_paths_agree_witness :
    cellAt (collision_tree ctx0 q_ce cells_close) 0
      = cellAt (collision_grid ctx0 q_ce cells_close) 0 :=
  collision_paths_agree ctx0 cells_close q_ce 0
    (by norm_num [cellAt, cells_close, defaultCell, ctx0])
    (by
      intro qi hqi
      have hq : qi = 1 := by simpa [q_ce] using hqi
      subst hq
      norm_num [cells_close, cellAt, defaultCell, ctx0, Vec3.sub, Vec3.squaredNorm, Vec3.zero])

/-- A halted split pass (the MAX_POP early return has fired) does nothing. -/
theorem split_step_halted (ctx : Ctx) (s : List Cell × Bool) (i : Nat) (h : s.2 = true) :
    split_step ctx s i = s := by
  simp [split_step, h]

/-- The split pass skips frozen and environs cells. -/
theorem split_step_skip (ctx : Ctx) (cells : List Cell) (i : Nat)
    (h : (cellAt cells i).frozen = true ∨ (cellAt cells i).environs = true) :
    split_step ctx (cells, false) i = (cells, false) := by
  rcases h with h | h <;> simp [split_step, h]

/-- The split pass skips cells below the food threshold and degree bound. -/
theorem split_step_nocond (ctx : Ctx) (cells : List Cell) (i : Nat)
    (h1 : ¬(cellAt cells i).food > ctx.threshold)
    (h2 : ¬(cellAt cells i).links.length > ctx.max_degree) :
    split_step ctx (cells, false) i = (cells, false) := by
  simp [split_step, h1, h2]

/-- The split pass fires the early return when a qualifying cell is visited
at full population. -/
theorem split_step_halts (ctx : Ctx) (cells : List Cell) (i : Nat)
    (hf : (cellAt cells i).frozen = false) (he : (cellAt cells i).environs = false)
    (hc : (cellAt cells i).food > ctx.threshold ∨
      (cellAt cells i).links.length > ctx.max_degree)
    (hmp : cells.length = ctx.MAX_POP) :
    split_step ctx (cells, false) i = (cells, true) := by
  rcases hc with hc | hc <;> simp [split_step, hf, he, hc, hmp]

/-- The split pass freezes a qualifying cell whose ring is not a good loop,
splitting nothing. -/
theorem split_step_freeze (ctx : Ctx) (cells : List Cell) (i : Nat)
    (hf : (cellAt cells i).frozen = false) (he : (cellAt cells i).environs = false)
    (hc : (cellAt cells i).food > ctx.threshold ∨
      (cellAt cells i).links.length > ctx.max_degree)
    (hmp : cells.length ≠ ctx.MAX_POP)
    (hgl : good_loop cells (cellAt cells i) = false) :
    split_step ctx (cells, false) i
      = (cells.set i { cellAt cells i with frozen := true }, false) := by
  rcases hc with hc | hc <;> simp [split_step, hf, he, hc, hmp, hgl]

/-- The split pass performs a split on a qualifying good-loop cell below the
ceiling: one fresh cell is appended at the tail, the Particle::split rewiring
runs, and the child is frozen if its resulting ring is not a good loop. -/
theorem split_step_splits (ctx : Ctx) (cells : List Cell) (i : Nat)
    (hf : (cellAt cells i).frozen = false) (he : (cellAt cells i).environs = false)
    (hc : (cellAt cells i).food > ctx.threshold ∨
      (cellAt cells i).links.length > ctx.max_degree)
    (hmp : cells.length ≠ ctx.MAX_POP)
    (hgl : good_loop cells (cellAt cells i) = true) :
    split_step ctx (cells, false) i =
      (let long := match ctx.split_mode with | Split.LONG => true | Split.ZERO => false
       let cells2 := ctx.particle_split long i (cells ++ [defaultCell cells.length])
       let d := cellAt cells2 cells.length
       ((if !good_loop cells2 d then cells2.set cells.length { d with frozen := true }
         else cells2), false)) := by
  rcases hc with hc | hc <;> simp [split_step, hf, he, hc, hmp, hgl]

/-- One split iteration either keeps the population or, strictly below the
ceiling, appends exactly one cell. -/
theorem split_step_length_cases (ctx : Ctx)
    (hlen : ∀ b i cs, (ctx.particle_split b i cs).length = cs.length)
    (s : List Cell × Bool) (i : Nat) :
    (split_step ctx s i).1.length = s.1.length ∨
    ((split_step ctx s i).1.length = s.1.length + 1 ∧ s.1.length ≠ ctx.MAX_POP) := by
  obtain ⟨cells, b⟩ := s
  cases b with
  | true => exact Or.inl (by rw [split_step_halted ctx _ i rfl])
  | false =>
    by_cases hf : (cellAt cells i).frozen = true
    · exact Or.inl (by rw [split_step_skip ctx cells i (Or.inl hf)])
    have hf' : (cellAt cells i).frozen = false := by simpa using hf
    by_cases he : (cellAt cells i).environs = true
    · exact Or.inl (by rw [split_step_skip ctx cells i (Or.inr he)])
    have he' : (cellAt cells i).environs = false := by simpa using he
    by_cases hc : (cellAt cells i).food > ctx.threshold ∨
        (cellAt cells i).links.length > ctx.max_degree
    · by_cases hmp : cells.length = ctx.MAX_POP
      · exact Or.inl (by rw [split_step_halts ctx cells i hf' he' hc hmp])
      · by_cases hgl : good_loop cells (cellAt cells i) = true
        · refine Or.inr ⟨?_, hmp⟩
          rw [split_step_splits ctx cells i hf' he' hc hmp hgl]
          by_cases h2 : good_loop
              (ctx.particle_split
                (match ctx.split_mode with | Split.LONG => true | Split.ZERO => false) i
                (cells ++ [defaultCell cells.length]))
              (cellAt
                (ctx.particle_split
                  (match ctx.split_mode with | Split.LONG => true | Split.ZERO => false) i
                  (cells ++ [defaultCell cells.length])) cells.length) = true
          · simp [h2, hlen]
          · simp [h2, hlen]
        · have hgl' : good_loop cells (cellAt cells i) = false := by simpa using hgl
          exact Or.inl
            (by rw [split_step_freeze ctx cells i hf' he' hc hmp hgl']; simp)
    · rw [not_or] at hc
      exact Or.inl (by rw [split_step_nocond ctx cells i hc.1 hc.2])

/-- Population bounds of the split fold: it never shrinks, grows by at most
one cell per visited index, and respects the MAX_POP ceiling. -/
theorem split_fold_bounds (ctx : Ctx)
    (hlen : ∀ b i cs, (ctx.particle_split b i cs).length = cs.length) :
    ∀ (l : List Nat) (s : List Cell × Bool),
      s.1.length ≤ (l.foldl (split_step ctx) s).1.length ∧
      (l.foldl (split_step ctx) s).1.length ≤ s.1.length + l.length ∧
      (s.1.length ≤ ctx.MAX_POP → (l.foldl (split_step ctx) s).1.length ≤ ctx.MAX_POP) := by
  intro l
  induction l with
  | nil => intro s; simp
  | cons a l ih =>
    intro s
    have hstep := split_step_length_cases ctx hlen s a
    have hrec := ih (split_step ctx s a)
    rw [List.foldl_cons]
    rcases hstep with h | ⟨h, hne⟩
    · refine ⟨?_, ?_, ?_⟩
      · omega
      · have := hrec.2.1
        simp only [List.length_cons]
        omega
      · intro hle
        exact hrec.2.2 (by omega)
    · refine ⟨?_, ?_, ?_⟩
      · omega
      · have := hrec.2.1
        simp only [List.length_cons]
        omega
      · intro hle
        exact hrec.2.2 (by omega)

/-- The cell just appended at the tail. -/
theorem cellAt_append_self (l : List Cell) (c : Cell) : cellAt (l ++ [c]) l.length = c := by
  simp [cellAt, List.getD_eq_getElem?_getD, List.getElem?_append_right (le_refl l.length)]

/-- One split iteration (not yet halted) appends a cell exactly when the
visited cell is non-frozen, non-environs, saturated in food or degree, the
population is not at the ceiling, and its ring is a good loop. -/
theorem split_step_appends_iff (ctx : Ctx)
    (hlen : ∀ b i cs, (ctx.particle_split b i cs).length = cs.length)
    (cells : List Cell) (i : Nat) :
    (split_step ctx (cells, false) i).1.length = cells.length + 1 ↔
      ((cellAt cells i).frozen = false ∧ (cellAt cells i).environs = false ∧
       ((cellAt cells i).food > ctx.threshold ∨
         (cellAt cells i).links.length > ctx.max_degree) ∧
       cells.length ≠ ctx.MAX_POP ∧ good_loop cells (cellAt cells i) = true) := by
  constructor
  · intro h
    by_cases hf : (cellAt cells i).frozen = true
    · rw [split_step_skip ctx cells i (Or.inl hf)] at h
      simp at h
    have hf' : (cellAt cells i).frozen = false := by simpa using hf
    by_cases he : (cellAt cells i).environs = true
    · rw [split_step_skip ctx cells i (Or.inr he)] at h
      simp at h
    have he' : (cellAt cells i).environs = false := by simpa using he
    by_cases hc : (cellAt cells i).food > ctx.threshold ∨
        (cellAt cells i).links.length > ctx.max_degree
    · by_cases hmp : cells.length = ctx.MAX_POP
      · rw [split_step_halts ctx cells i hf' he' hc hmp] at h
        simp at h
      · by_cases hgl : good_loop cells (cellAt cells i) = true
        · exact ⟨hf', he', hc, hmp, hgl⟩
        · have hgl' : good_loop cells (cellAt cells i) = false := by simpa using hgl
          rw [split_step_freeze ctx cells i hf' he' hc hmp hgl'] at h
          simp at h
    · rw [not_or] at hc
      rw [split_step_nocond ctx cells i hc.1 hc.2] at h
      simp at h
  · rintro ⟨hf, he, hc, hmp, hgl⟩
    rw [split_step_splits ctx cells i hf he hc hmp hgl]
    by_cases h2 : good_loop
        (ctx.particle_split
          (match ctx.split_mode with | Split.LONG => true | Split.ZERO => false) i
          (cells ++ [defaultCell cells.length]))
        (cellAt
          (ctx.particle_split
            (match ctx.split_mode with | Split.LONG => true | Split.ZERO => false) i
            (cells ++ [defaultCell cells.length])) cells.length) = true
    · simp [h2, hlen]
    · simp [h2, hlen]

/-- When a split iteration appends a cell, the appended cell sits at the
tail and carries the next sequential index — the population count before the
append. -/
theorem split_step_new_index (ctx : Ctx)
    (hlen : ∀ b i cs, (ctx.particle_split b i cs).length = cs.length)
    (hidx : ∀ b i cs j, (cellAt (ctx.particle_split b i cs) j).index = (cellAt cs j).index)
    (cells : List Cell) (i : Nat)
    (h : (split_step ctx (cells, false) i).1.length = cells.length + 1) :
    (cellAt (split_step ctx (cells, false) i).1 cells.length).index = cells.length := by
  obtain ⟨hf, he, hc, hmp, hgl⟩ := (split_step_appends_iff ctx hlen cells i).mp h
  rw [split_step_splits ctx cells i hf he hc hmp hgl]
  have hlen2 : (ctx.particle_split
      (match ctx.split_mode with | Split.LONG => true | Split.ZERO => false) i
      (cells ++ [defaultCell cells.length])).length = cells.length + 1 := by
    rw [hlen]
    simp
  have hdidx : (cellAt (ctx.particle_split
      (match ctx.split_mode with | Split.LONG => true | Split.ZERO => false) i
      (cells ++ [defaultCell cells.length])) cells.length).index = cells.length := by
    rw [hidx, cellAt_append_self]
    rfl
  by_cases h2 : good_loop
      (ctx.particle_split
        (match ctx.split_mode with | Split.LONG => true | Split.ZERO => false) i
        (cells ++ [defaultCell cells.length]))
      (cellAt
        (ctx.particle_split
          (match ctx.split_mode with | Split.LONG => true | Split.ZERO => false) i
          (cells ++ [defaultCell cells.length])) cells.length) = true
  · simp only [h2, Bool.not_true, Bool.false_eq_true, if_false]
    exact hdidx
  · have h2' : good_loop
        (ctx.particle_split
          (match ctx.split_mode with | Split.LONG => true | Split.ZERO => false) i
          (cells ++ [defaultCell cells.length]))
        (cellAt
          (ctx.particle_split
            (match ctx.split_mode with | Split.LONG => true | Split.ZERO => false) i
            (cells ++ [defaultCell cells.length])) cells.length) = false := by
      simpa using h2
    simp only [h2', Bool.not_false, if_true]
    rw [cellAt_set_self _ _ _ (by rw [hlen2]; omega)]
    exact hdidx

/-- One split iteration (not yet halted) fires the early return exactly when
it visits a non-frozen, non-environs, saturated cell while the population
already equals the ceiling. -/
theorem split_step_halts_iff (ctx : Ctx) (cells : List Cell) (i : Nat) :
    (split_step ctx (cells, false) i).2 = true ↔
      ((cellAt cells i).frozen = false ∧ (cellAt cells i).environs = false ∧
       ((cellAt cells i).food > ctx.threshold ∨
         (cellAt cells i).links.length > ctx.max_degree) ∧
       cells.length = ctx.MAX_POP) := by
  constructor
  · intro h
    by_cases hf : (cellAt cells i).frozen = true
    · rw [split_step_skip ctx cells i (Or.inl hf)] at h
      simp at h
    have hf' : (cellAt cells i).frozen = false := by simpa using hf
    by_cases he : (cellAt cells i).environs = true
    · rw [split_step_skip ctx cells i (Or.inr he)] at h
      simp at h
    have he' : (cellAt cells i).environs = false := by simpa using he
    by_cases hc : (cellAt cells i).food > ctx.threshold ∨
        (cellAt cells i).links.length > ctx.max_degree
    · by_cases hmp : cells.length = ctx.MAX_POP
      · exact ⟨hf', he', hc, hmp⟩
      · by_cases hgl : good_loop cells (cellAt cells i) = true
        · rw [split_step_splits ctx cells i hf' he' hc hmp hgl] at h
          by_cases h2 : good_loop
              (ctx.particle_split
                (match ctx.split_mode with | Split.LONG => true | Split.ZERO => false) i
                (cells ++ [defaultCell cells.length]))
              (cellAt
                (ctx.particle_split
                  (match ctx.split_mode with | Split.LONG => true | Split.ZERO => false) i
                  (cells ++ [defaultCell cells.length])) cells.length) = true
          · simp [h2] at h
          · simp [h2] at h
        · have hgl' : good_loop cells (cellAt cells i) = false := by simpa using hgl
          rw [split_step_freeze ctx cells i hf' he' hc hmp hgl'] at h
          simp at h
    · rw [not_or] at hc
      rw [split_step_nocond ctx cells i hc.1 hc.2] at h
      simp at h
  · rintro ⟨hf, he, hc, hmp⟩
    rw [split_step_halts ctx cells i hf he hc hmp]

/-- C2: Simulation::split folds over exactly the first N indices, N being
the population at the start of the phase, so cells appended during the phase
are never visited (the population grows by at most N and never shrinks); a
visited iteration is a no-op once the early return has fired; it appends a
cell iff the visited cell is non-frozen, non-environs, over the food
threshold or degree bound, the population is not at MAX_POP, and its ring is
a good loop; the appended cell sits at the tail with the next sequential
index; the early return fires exactly when a qualifying cell is visited at
full population, and the phase keeps the population at or below MAX_POP. -/
theorem split_phase_spec (ctx : Ctx)
    (hlen : ∀ b i cs, (ctx.particle_split b i cs).length = cs.length)
    (hidx : ∀ b i cs j, (cellAt (ctx.particle_split b i cs) j).index = (cellAt cs j).index) :
    (∀ (s : List Cell × Bool) (i : Nat), s.2 = true → split_step ctx s i = s) ∧
    (∀ (cells : List Cell) (i : Nat),
      (split_step ctx (cells, false) i).1.length = cells.length + 1 ↔
        ((cellAt cells i).frozen = false ∧ (cellAt cells i).environs = false ∧
         ((cellAt cells i).food > ctx.threshold ∨
           (cellAt cells i).links.length > ctx.max_degree) ∧
         cells.length ≠ ctx.MAX_POP ∧ good_loop cells (cellAt cells i) = true)) ∧
    (∀ (cells : List Cell) (i : Nat),
      (split_step ctx (cells, false) i).1.length = cells.length + 1 →
        (cellAt (split_step ctx (cells, false) i).1 cells.length).index = cells.length) ∧
    (∀ (cells : List Cell) (i : Nat),
      (split_step ctx (cells, false) i).2 = true ↔
        ((cellAt cells i).frozen = false ∧ (cellAt cells i).environs = false ∧
         ((cellAt cells i).food > ctx.threshold ∨
           (cellAt cells i).links.length > ctx.max_degree) ∧
         cells.length = ctx.MAX_POP)) ∧
    (∀ cells : List Cell,
      split ctx cells = ((List.range cells.length).foldl (split_step ctx) (cells, false)).1 ∧
      cells.length ≤ (split ctx cells).length ∧
      (split ctx cells).length ≤ cells.length + cells.length ∧
      (cells.length ≤ ctx.MAX_POP → (split ctx cells).length ≤ ctx.MAX_POP)) := by
  refine ⟨fun s i h => split_step_halted ctx s i h,
    fun cells i => split_step_appends_iff ctx hlen cells i,
    fun cells i h => split_step_new_index ctx hlen hidx cells i h,
    fun cells i => split_step_halts_iff ctx cells i,
    fun cells => ⟨rfl, ?_, ?_, ?_⟩⟩
  · exact (split_fold_bounds ctx hlen (List.range cells.length) (cells, false)).1
  · have h := (split_fold_bounds ctx hlen (List.range cells.length) (cells, false)).2.1
    simpa using h
  · intro hle
    exact (split_fold_bounds ctx hlen (List.range cells.length) (cells, false)).2.2 hle

/-- Witness for C2 on the concrete bad-loop population with the identity
rewiring model. -/
theorem split_phase_spec_witness :
    cells_bad_loop.length ≤ (split ctx0 cells_bad_loop).length ∧
    (split ctx0 cells_bad_loop).length ≤ ctx0.MAX_POP :=
  ⟨((split_phase_spec ctx0 (fun _ _ _ => rfl) (fun _ _ _ _ => rfl)).2.2.2.2
      cells_bad_loop).2.1,
   ((split_phase_spec ctx0 (fun _ _ _ => rfl) (fun _ _ _ _ => rfl)).2.2.2.2
      cells_bad_loop).2.2.2 (by simp [cells_bad_loop, ctx0])⟩

/-- Population size after one frame: the collision, force and integration
phases are per-cell maps, so only the growth phase can change the count, and
it runs only below the ceiling. -/
theorem update_cells_length (ctx : Ctx) (queries : Nat → List Nat) (st : SimState) :
    (update ctx queries st).cells.length =
      (if st.cells.length < ctx.MAX_POP
       then (split ctx (add_food ctx st.frame_num st.cells)).length
       else st.cells.length) := by
  unfold update
  by_cases h : st.cells.length < ctx.MAX_POP <;>
    simp [h, update_position, add_cpu_forces, collision_tree, collision_scan]

/-- Population bounds of the split phase alone. -/
theorem split_length_bounds (ctx : Ctx)
    (hlen : ∀ b i cs, (ctx.particle_split b i cs).length = cs.length) (cells : List Cell) :
    cells.length ≤ (split ctx cells).length ∧
    (cells.length ≤ ctx.MAX_POP → (split ctx cells).length ≤ ctx.MAX_POP) :=
  ⟨(split_fold_bounds ctx hlen (List.range cells.length) (cells, false)).1,
   fun h => (split_fold_bounds ctx hlen (List.range cells.length) (cells, false)).2.2 h⟩

/-- C3: across one call of Simulation::update the population is monotone
non-decreasing and stays at or below MAX_POP: cells are only ever appended
(by the split phase), the whole growth phase is skipped when the population
has reached MAX_POP, and split refuses to append once the population reaches
MAX_POP — so a full population stays exactly full. -/
theorem update_pop_monotone_bounded (ctx : Ctx) (queries : Nat → List Nat) (st : SimState)
    (hlen : ∀ b i cs, (ctx.particle_split b i cs).length = cs.length)
    (hmp : st.cells.length ≤ ctx.MAX_POP) :
    st.cells.length ≤ (update ctx queries st).cells.length ∧
    (update ctx queries st).cells.length ≤ ctx.MAX_POP ∧
    (st.cells.length = ctx.MAX_POP → (update ctx queries st).cells.length = ctx.MAX_POP) := by
  rw [update_cells_length]
  by_cases h : st.cells.length < ctx.MAX_POP
  · simp only [h, if_true]
    have haf : (add_food ctx st.frame_num st.cells).length = st.cells.length :=
      add_food_go_length ctx st.frame_num 0 st.cells
    have hb := split_length_bounds ctx hlen (add_food ctx st.frame_num st.cells)
    refine ⟨by omega, ?_, by omega⟩
    exact hb.2 (by omega)
  · simp only [h, if_false]
    exact ⟨le_refl _, hmp, fun h2 => h2⟩

/-- Witness for C3 on the concrete young pair. -/
theorem update_pop_monotone_bounded_witness :
    (⟨cells_close, 0, 0⟩ : SimState).cells.length
        ≤ (update ctx0 q_ce ⟨cells_close, 0, 0⟩).cells.length ∧
    (update ctx0 q_ce ⟨cells_close, 0, 0⟩).cells.length ≤ ctx0.MAX_POP :=
  ⟨(update_pop_monotone_bounded ctx0 q_ce ⟨cells_close, 0, 0⟩ (fun _ _ _ => rfl)
      (by simp [cells_close, ctx0])).1,
   (update_pop_monotone_bounded ctx0 q_ce ⟨cells_close, 0, 0⟩ (fun _ _ _ => rfl)
      (by simp [cells_close, ctx0])).2.1⟩

/-- Taking one past a freshly written slot splits off exactly that write. -/
theorem take_succ_set_self {α : Type} (l : List α) (k : Nat) (v : α) (h : k < l.length) :
    (l.set k v).take (k + 1) = l.take k ++ [v] := by
  induction l generalizing k with
  | nil => simp at h
  | cons a l ih =>
    cases k with
    | zero => simp
    | succ k =>
      have hk : k < l.length := by simpa using h
      simp [List.set_cons_succ, List.take_cons, ih k hk]

/-- The row-write fold of set_matrices lays the payload of cells whose
indices run sequentially from an offset over the matching slots of the
accumulator. -/
theorem fold_set_positions (f : Cell → Vec3) :
    ∀ (cs : List Cell) (k : Nat) (acc : List Vec3),
      acc.length = k + cs.length →
      (∀ m (hm : m < cs.length), (cs.get ⟨m, hm⟩).index = k + m) →
      cs.foldl (fun V p => V.set p.index (f p)) acc = acc.take k ++ cs.map f := by
  intro cs
  induction cs with
  | nil =>
    intro k acc hlen _
    simp only [List.length_nil, Nat.add_zero] at hlen
    simp [List.take_of_length_le (le_of_eq hlen)]
  | cons c cs ih =>
    intro k acc hlen hidx
    have hc : c.index = k := by
      have := hidx 0 (by simp)
      simpa using this
    rw [List.foldl_cons, hc]
    have hlt : k < acc.length := by
      simp at hlen
      omega
    have hrec := ih (k + 1) (acc.set k (f c))
      (by simp at hlen ⊢; omega)
      (by
        intro m hm
        have := hidx (m + 1) (by simpa using Nat.succ_lt_succ hm)
        simpa [Nat.add_assoc, Nat.add_comm 1 m] using this)
    rw [hrec, take_succ_set_self acc k (f c) hlt]
    simp

/-- The cursor-append fold of the face matrix is a flat map. -/
theorem foldl_append_flatMap {α β : Type} (f : α → List β) :
    ∀ (cs : List α) (acc : List β),
      cs.foldl (fun F p => F ++ f p) acc = acc ++ cs.flatMap f := by
  intro cs
  induction cs with
  | nil => intro acc; simp
  | cons c cs ih =>
    intro acc
    rw [List.foldl_cons, ih, List.flatMap_cons, List.append_assoc]

/-- Block addressing inside a flat map: dropping the summed lengths of the
first j blocks and taking the j-th block length recovers the j-th block. -/
theorem flatMap_drop_take {α β : Type} (f : α → List β) :
    ∀ (l : List α) (j : Nat) (hj : j < l.length),
      ((l.flatMap f).drop (((l.take j).map fun a => (f a).length).sum)).take
          (f (l.get ⟨j, hj⟩)).length
        = f (l.get ⟨j, hj⟩) := by
  intro l
  induction l with
  | nil => intro j hj; simp at hj
  | cons a l ih =>
    intro j hj
    cases j with
    | zero => simp [List.flatMap_cons, List.take_left]
    | succ j =>
      have hj' : j < l.length := by simpa using hj
      have := ih j hj'
      simp only [List.flatMap_cons, List.take_cons, List.map_cons, List.sum_cons,
        List.drop_append]
      simpa using this

/-- Reading a mapped range at an in-range position. -/
theorem range_map_getD {β : Type} (g : Nat → β) (k i : Nat) (d : β) (h : i < k) :
    ((List.range k).map g).getD i d = g i := by
  simp [List.getD_eq_getElem?_getD, List.getElem?_map, List.getElem?_range h]

/-- In-range reads agree with get. -/
theorem cellAt_eq_get (cells : List Cell) (j : Nat) (hj : j < cells.length) :
    cellAt cells j = cells.get ⟨j, hj⟩ := by
  simp [cellAt, List.getD_eq_getElem?_getD, List.getElem?_eq_getElem hj]

/-- Every face row of one cell has length equal to its ring size. -/
theorem face_rows_length (cells : List Cell) (p : Cell) :
    (face_rows cells p).length = p.links.length := by
  simp [face_rows]

/-- C8: under the index-stability invariant, set_matrices produces V and N
with one row per cell where row cell.index holds that cell's position and
normal; and F holds one row per ring slot of every cell — sum of ring sizes
in total — laid out cell by cell by the running cursor, the row of cell p at
ring slot i being (p.index, index of the cell linked at slot (i+1) mod k,
index of the cell linked at slot i). -/
theorem set_matrices_spec (cells : List Cell)
    (h : ∀ j (hj : j < cells.length), (cells.get ⟨j, hj⟩).index = j) :
    set_matrices_V cells = cells.map (fun p => p.position) ∧
    set_matrices_N cells = cells.map (fun p => p.normal) ∧
    (∀ j (hj : j < cells.length),
      (set_matrices_V cells).getD (cells.get ⟨j, hj⟩).index (Vec3.zero)
          = (cells.get ⟨j, hj⟩).position ∧
      (set_matrices_N cells).getD (cells.get ⟨j, hj⟩).index (Vec3.zero)
          = (cells.get ⟨j, hj⟩).normal) ∧
    (set_matrices_F cells).length = (cells.map fun p => p.links.length).sum ∧
    (∀ j (hj : j < cells.length),
      ((set_matrices_F cells).drop
          (((cells.take j).map fun p => p.links.length).sum)).take
          (cells.get ⟨j, hj⟩).links.length
        = face_rows cells (cells.get ⟨j, hj⟩)) ∧
    (∀ (p : Cell) (i : Nat), i < p.links.length →
      (face_rows cells p).getD i (0, 0, 0)
        = (p.index,
           (cellAt cells (p.links.getD ((i + 1) % p.links.length) 0)).index,
           (cellAt cells (p.links.getD i 0)).index)) := by
  have hV : set_matrices_V cells = cells.map fun p => p.position := by
    unfold set_matrices_V
    have := fold_set_positions (fun p => p.position) cells 0
      (List.replicate cells.length Vec3.zero) (by simp)
      (by intro m hm; simpa using h m hm)
    simpa using this
  have hN : set_matrices_N cells = cells.map fun p => p.normal := by
    unfold set_matrices_N
    have := fold_set_positions (fun p => p.normal) cells 0
      (List.replicate cells.length Vec3.zero) (by simp)
      (by intro m hm; simpa using h m hm)
    simpa using this
  have hF : set_matrices_F cells = cells.flatMap (face_rows cells) := by
    unfold set_matrices_F
    simpa using foldl_append_flatMap (face_rows cells) cells []
  refine ⟨hV, hN, ?_, ?_, ?_, ?_⟩
  · intro j hj
    constructor
    · rw [h j hj, hV]
      have hd : Vec3.zero = (fun p : Cell => p.position) (defaultCell 0) := rfl
      rw [hd, List.getD_map cells (defaultCell 0) (fun p : Cell => p.position)]
      rw [show cells.getD j (defaultCell 0) = cellAt cells j from rfl, cellAt_eq_get cells j hj]
    · rw [h j hj, hN]
      have hd : Vec3.zero = (fun p : Cell => p.normal) (defaultCell 0) := rfl
      rw [hd, List.getD_map cells (defaultCell 0) (fun p : Cell => p.normal)]
      rw [show cells.getD j (defaultCell 0) = cellAt cells j from rfl, cellAt_eq_get cells j hj]
  · rw [hF, List.length_flatMap]
    apply congrArg
    apply List.map_congr_left
    intro a _
    simp [face_rows_length]
  · intro j hj
    have hmain := flatMap_drop_take (face_rows cells) cells j hj
    have hsum : ((cells.take j).map fun a => (face_rows cells a).length).sum
        = ((cells.take j).map fun p => p.links.length).sum := by
      apply congrArg
      apply List.map_congr_left
      intro a _
      exact face_rows_length cells a
    rw [hsum, face_rows_length] at hmain
    rw [hF]
    exact hmain
  · intro p i hi
    unfold face_rows
    rw [range_map_getD _ _ _ _ hi]

/-- Witness for C8 on the concrete index-stable pair. -/
theorem set_matrices_spec_witness :
    set_matrices_V cells_close = cells_close.map (fun p => p.position) ∧
    (set_matrices_F cells_close).length = (cells_close.map fun p => p.links.length).sum :=
  ⟨(set_matrices_spec cells_close
      (by
        intro j hj
        match j, hj with
        | 0, _ => rfl
        | 1, _ => rfl)).1,
   (set_matrices_spec cells_close
      (by
        intro j hj
        match j, hj with
        | 0, _ => rfl
        | 1, _ => rfl)).2.2.2.1⟩
